import Mathlib

/-!
Verification development for the `modern_pylogging` library.

We shallowly embed the parts of the code that the claims of the specification
are about:

* `src/modern_pylogging/json_formatter.py` — the dotted-path field merger
  (`update_fields_with_nested`), the extra-field capture
  (`grab_record_extra_fields`, `RESERVED_ATTRS`), the static defaults
  (`get_logging_defaults`) and the record-dictionary builder
  (`JsonFormatterMixin._prepare_log_extra` / `_prepare_log_dict`).
* `src/modern_pylogging/contextvars_helpers.py` — the context-variable
  store (`get_log_extra`, `set_log_extra`, `update_log_extra`), embedded
  with an explicit heap so that sharing-by-reference is observable.
* `src/modern_pylogging/logging_handlers.py` — the `prepare` hand-off of the queue
  handler and the lifecycle of the queue listener with its
  process-exit hook.
* `src/modern_pylogging/logging_manager.py` — the lazy logger proxy.

Python dictionaries are modelled as insertion-ordered association lists:
assigning to an existing key replaces the value in place, assigning to a
fresh key appends.  Mutating Python code is modelled by explicit state
passing; code that can raise returns `Except`.
-/

namespace ModernPylogging

/-- A JSON-serializable Python value: strings, integers, and nested
dictionaries / lists, as handled by the merge code of the formatter. -/
inductive JVal where
  | str : String → JVal
  | int : Int → JVal
  | obj : List (String × JVal) → JVal
  | arr : List JVal → JVal
deriving Repr

/-- A Python dictionary with string keys, in insertion order. -/
abbrev JObj := List (String × JVal)

/-- `d[k]` lookup on a Python dict (first, and only, binding of `k`). -/
def lookupKey (d : JObj) (k : String) : Option JVal :=
  match d with
  | [] => none
  | (k', v) :: rest => if k' = k then some v else lookupKey rest k

/-- `d[k] = v` on a Python dict: replace the value of an existing key in
place (keeping its position), otherwise append the new binding. -/
def setKey (d : JObj) (k : String) (v : JVal) : JObj :=
  match d with
  | [] => [(k, v)]
  | (k', v') :: rest =>
      if k' = k then (k', v) :: rest else (k', v') :: setKey rest k v

/-- Python `field_name.split` on the separator `.`: split on every occurrence,
keeping empty segments; the result always has at least one element.
(`String.splitOn` has the same behaviour for a non-empty separator but is
defined by well-founded recursion, so we use a structurally recursive
embedding over the character list.) -/
def splitDotAux : List Char → List Char → List String
  | [], acc => [String.mk acc.reverse]
  | c :: rest, acc =>
      if c = '.' then String.mk acc.reverse :: splitDotAux rest []
      else splitDotAux rest (c :: acc)

/-- Python `s.split` with separator `.` . -/
def splitDot (s : String) : List String :=
  splitDotAux s.data []

/-- Walk / create the nested dictionaries for one dotted key and set the
final segment, mirroring the loop body of `update_fields_with_nested`:

    here = source_data
    for key in keys[:-1]:
        here = here.setdefault(key, {})
    here[keys[-1]] = field_value

`setdefault` returns the *existing* value when the key is present; when
that value is not a dictionary, the next operation performed on it
(`setdefault` or item assignment) raises a `TypeError`/`AttributeError`,
which we model as `Except.error ()`. -/
def setPath (d : JObj) (keys : List String) (v : JVal) : Except Unit JObj :=
  match keys with
  | [] => .ok d        -- unreachable: str.split always returns ≥ 1 segment
  | [k] => .ok (setKey d k v)
  | k :: rest =>
      match lookupKey d k with
      | none =>
          -- `setdefault` inserts a fresh `{}` and the walk continues inside it
          match setPath [] rest v with
          | .error e => .error e
          | .ok sub => .ok (setKey d k (.obj sub))
      | some (.obj sub) =>
          match setPath sub rest v with
          | .error e => .error e
          | .ok sub' => .ok (setKey d k (.obj sub'))
      | some _ => .error ()   -- non-dict at an intermediate segment: raises

/-- `update_fields_with_nested(source_data, updated_fields)` from
`json_formatter.py`: for every key of `updated_fields` (in insertion
order), split the key on `.` and set the dotted path in `source_data`;
an exception raised mid-loop propagates. -/
def update_fields_with_nested (source_data : JObj) : JObj → Except Unit JObj
  | [] => .ok source_data
  | (k, v) :: rest =>
      match setPath source_data (splitDot k) v with
      | .error e => .error e
      | .ok d₁ => update_fields_with_nested d₁ rest

/-- The `RESERVED_ATTRS` set from `json_formatter.py`: default `LogRecord`
attributes skipped by the capture pass, plus the transport-marker key
`binded_ctx_extra` set by `QueueHandlerContextVarsHappyPy312`. -/
def RESERVED_ATTRS : List String :=
  ["args", "asctime", "created", "exc_info", "filename", "funcName",
   "levelname", "levelno", "lineno", "message", "module", "msecs", "msg",
   "name", "pathname", "process", "processName", "relativeCreated",
   "stack_info", "thread", "threadName", "taskName", "binded_ctx_extra"]

/-- Python `key.startswith` with the one-character prefix `_`: true iff
the first character of the key is `_`.  (The character-level equivalent of
the one-character-prefix case; `String.startsWith` is defined by
well-founded recursion and does not reduce in the kernel.) -/
def startsWithUnderscore (k : String) : Bool :=
  match k.data with
  | [] => false
  | c :: _ => c = '_'

/-- `grab_record_extra_fields(record, reserved)`: iterate over
`record.__dict__` in insertion order and keep every attribute whose key is
not in `reserved` and does not start with `_`.  (The Python code also
tolerates non-string keys via a `hasattr` check on the key; the
embedding restricts keys to strings, for which that check is always
true.) -/
def grab_record_extra_fields (recordDict : JObj) (reserved : List String) : JObj :=
  recordDict.filter (fun kv => ¬ kv.1 ∈ reserved ∧ ¬ startsWithUnderscore kv.1)

/-- The environment-derived values the process-wide defaults resolve to
(`get_env` over prioritized environment-variable lists with hostname /
cwd-basename fallbacks; the resolution itself reads the OS environment and
is kept abstract). -/
structure LoggingEnv where
  envName : String
  systemName : String
  instName : String

/-- `get_logging_defaults()`: the cached process-wide static defaults.
The keys are the literals `env`, `system`, `inst` from the source;
the values come from the environment. -/
def get_logging_defaults (e : LoggingEnv) : JObj :=
  [("env", .str e.envName), ("system", .str e.systemName),
   ("inst", .str e.instName)]

/-- The `exc_info` triple `(exc_type, exc_value, tb)` of a record, as the
formatter consumes it.  `excTypeName` is `exc_type.__name__`;
`excTypeClassName` is `exc_type.__class__.__name__`, i.e. the name of the
metaclass of the exception class — `"type"` for every
ordinary Python exception class.  `excValueRepr` is `repr(exc_value)` and
`tbFrames` is `format_tb(tb)`. -/
structure ExcInfo where
  excTypeName : String
  excTypeClassName : String
  excValueRepr : String
  tbFrames : List String

/-- A log record as consumed by `JsonFormatterMixin._prepare_log_dict`.
The standard metadata attributes the formatter reads are split out as
typed fields (in Python they live in `record.__dict__` under the reserved
names); `attrs` is `record.__dict__` as iterated by
`grab_record_extra_fields`; `bindedCtxExtra` models
the `hasattr` test on `binded_ctx_extra` and its value.  `messageRendered`
is the result of `record.getMessage()` (the `%`-formatted message). -/
structure Record where
  created : Nat
  levelname : String
  messageRendered : String
  pathname : String
  lineno : Nat
  name : String
  excInfo : Option ExcInfo
  attrs : JObj
  bindedCtxExtra : Option JObj

/-- `JsonFormatterMixin._prepare_log_extra(record)`: the active context
snapshot (`get_log_extra()`) if it is non-empty, else the
transport-bound `binded_ctx_extra` of the record if present, else an
empty dict. -/
def prepare_log_extra (ctxExtra : JObj) (record : Record) : JObj :=
  match ctxExtra with
  | _ :: _ => ctxExtra        -- `if extra:` — a non-empty dict is truthy
  | [] =>
      match record.bindedCtxExtra with
      | some binded => binded
      | none => []

/-- The `log_record` dictionary literal built at the top of
`_prepare_log_dict`, together with the `error` object added when
`record.exc_info` is set: timestamp, level name, rendered message,
call-site params, and — for a record carrying error info — an `error`
object with `code` (`exc_type.__class__.__name__`), `message`
(`repr(exc_value)`), `stack` (`format_tb(tb)`, a list of strings) and an
always-empty `params`.  `tsIso` abstracts `timestamp_to_iso`
(datetime/float formatting, not embedded). -/
def formatter_base (tsIso : Nat → String) (record : Record) : JObj :=
  let base : JObj :=
    [("timestamp", .str (tsIso record.created)),
     ("level", .str record.levelname),
     ("message", .str record.messageRendered),
     ("params", .obj
        [("call_filepath",
          .str (record.pathname ++ ":" ++ toString record.lineno)),
         ("logger_name", .str record.name)])]
  match record.excInfo with
  | some ei =>
      base ++ [("error", .obj
        [("code", .str ei.excTypeClassName),
         ("message", .str ei.excValueRepr),
         ("stack", .arr (ei.tbFrames.map .str)),
         ("params", .obj [])])]
  | none => base

/-- `JsonFormatterMixin._prepare_log_dict(record)`: merge, in order, the
cached static defaults, then the context/transport extra, then (when
`capture_extra_fields` is set) the captured record attributes, into the
base dictionary.  `env` feeds the cached `get_logging_defaults()`;
`ctxExtra` is the current `get_log_extra()` snapshot; an exception from a
merge propagates. -/
def prepare_log_dict (tsIso : Nat → String) (captureExtraFields : Bool)
    (env : LoggingEnv) (ctxExtra : JObj) (record : Record) :
    Except Unit JObj :=
  let default_data := get_logging_defaults env
  match update_fields_with_nested (formatter_base tsIso record) default_data with
  | .error e => .error e
  | .ok d₁ =>
      match update_fields_with_nested d₁ (prepare_log_extra ctxExtra record) with
      | .error e => .error e
      | .ok d₂ =>
          if captureExtraFields then
            update_fields_with_nested d₂ (grab_record_extra_fields record.attrs
              (RESERVED_ATTRS ++ (default_data.map Prod.fst)))
          else
            .ok d₂

/-! ### `contextvars_helpers.py`, with an explicit heap

`get_log_extra` (without `should_copy`) returns the very dictionary
object stored in the `_log_extra_data` context variable, so whether the
transport hand-off shares or copies that object is observable.  We model
dictionary objects as heap cells: an address (`Nat`, index into the heap),
whose content is the key/value list of the dictionary.  Values held in the
dictionaries are opaque (`Nat`); the claims below concern the identity and
content of the top-level mapping, where `copy.deepcopy` and a shallow copy
agree. -/

/-- The content of one Python dict object used as context extra. -/
abbrev CtxDict := List (String × Nat)

/-- The heap of dict objects (address = list index) together with the
`_log_extra_data` context variable of the current task (`none` = unset, i.e.
`LookupError` on `.get()`). -/
structure CtxWorld where
  heap : List CtxDict
  cv : Option Nat

/-- Dereference an address. -/
def heapGet (h : List CtxDict) (a : Nat) : CtxDict := h.getD a []

/-- Allocate a fresh dict object; returns the new heap and its address. -/
def alloc (h : List CtxDict) (d : CtxDict) : List CtxDict × Nat :=
  (h ++ [d], h.length)

/-- `d[k] = v` on a `CtxDict`. -/
def ctxSetKey (d : CtxDict) (k : String) (v : Nat) : CtxDict :=
  match d with
  | [] => [(k, v)]
  | (k', v') :: rest =>
      if k' = k then (k', v) :: rest else (k', v') :: ctxSetKey rest k v

/-- Python `d1 | d2` content: a new dict with the items of `d1` followed by
the items of `d2`, later keys overwriting. -/
def dictUnion (d₁ d₂ : CtxDict) : CtxDict :=
  d₂.foldl (fun acc kv => ctxSetKey acc kv.1 kv.2) d₁

/-- `get_log_extra(should_copy)`: read the context variable; on
`LookupError` fall back to a fresh `{}`; with `should_copy=True` return a
`deepcopy`.  Returns the (possibly grown) world and the address of the
returned dict object. -/
def get_log_extra (w : CtxWorld) (shouldCopy : Bool) : CtxWorld × Nat :=
  match w.cv with
  | none =>
      -- `extra = {}` in the except-branch: a fresh dict, NOT stored in the cv
      let (h₁, e) := alloc w.heap []
      if shouldCopy then
        let (h₂, c) := alloc h₁ (heapGet h₁ e)
        ({ heap := h₂, cv := w.cv }, c)
      else
        ({ heap := h₁, cv := w.cv }, e)
  | some a =>
      if shouldCopy then
        let (h₁, c) := alloc w.heap (heapGet w.heap a)
        ({ heap := h₁, cv := w.cv }, c)
      else
        (w, a)

/-- `set_log_extra(log_extra)`: point the context variable at the given
dict object. -/
def set_log_extra (w : CtxWorld) (a : Nat) : CtxWorld :=
  { w with cv := some a }

/-- `update_log_extra(updates)`: read a deep copy of the current extra,
build `current_extra | updates` (a fresh dict object), and install it as
the new context value. -/
def update_log_extra (w : CtxWorld) (updates : CtxDict) : CtxWorld :=
  let (w₁, c) := get_log_extra w true
  let merged := dictUnion (heapGet w₁.heap c) updates
  let (h₂, m) := alloc w₁.heap merged
  set_log_extra { heap := h₂, cv := w₁.cv } m

/-- `QueueHandlerContextVarsHappyPy312.prepare`: attach the result of
`get_log_extra()` — note: no `should_copy` — to the record as
`binded_ctx_extra`.  Returns the world and the address that `binded_ctx_extra` of the record
now refers to. -/
def prepare_binded_extra (w : CtxWorld) : CtxWorld × Nat :=
  get_log_extra w false

/-- A direct in-place producer mutation `d[k] = v` of the dict object at
address `a` (e.g. of the mapping obtained from `get_log_extra()`). -/
def mutateInPlace (w : CtxWorld) (a : Nat) (k : String) (v : Nat) : CtxWorld :=
  { w with heap := w.heap.set a (ctxSetKey (heapGet w.heap a) k v) }

/-- Reading the current scope: the content of the dict returned by
`get_log_extra()`. -/
def readExtra (w : CtxWorld) : CtxDict :=
  let (w', a) := get_log_extra w false
  heapGet w'.heap a

/-! ### Listener lifecycle and the process-exit hook

`LoggingQueueListener.__init__` (`logging_handlers.py`) calls
`self.start()` and then `atexit.register(self.stop)`; the picologging
`QueueListenerHandler.__init__` (`picologging_handlers.py`) likewise calls
`self.listener.start()` and `atexit.register(self.listener.stop)`.
Neither class defines any further lifecycle code: in particular no call to
`atexit.unregister` appears anywhere under `src/modern_pylogging` (the
*test helper* `cleanup_logging_impl` of the repository unregisters the hook
itself before stopping).  We track how many times the stop routine has run
and whether the exit hook is currently registered. -/

structure ListenerWorld where
  started : Bool
  stopRuns : Nat
  hookRegistered : Bool

/-- Construction: `super().__init__(...)`; `self.start()`;
`atexit.register(self.stop)`. -/
def listenerConstruct : ListenerWorld :=
  { started := true, stopRuns := 0, hookRegistered := true }

/-- An explicit call to `stop()` on the listener.  The class neither guards
against repetition nor touches the atexit registration. -/
def explicitStop (w : ListenerWorld) : ListenerWorld :=
  { w with stopRuns := w.stopRuns + 1 }

/-- Normal process termination: `atexit` runs each still-registered hook
exactly once and discharges it. -/
def processExit (w : ListenerWorld) : ListenerWorld :=
  if w.hookRegistered then
    { w with stopRuns := w.stopRuns + 1, hookRegistered := false }
  else w

/-! ### `logging_manager.py`: the lazy logger proxy

`LoggerProxy.real_logger` resolves the real logger on first use.  The
embedding is parameterized by the logger-handle type `L`; `fallback` is
the module-level `fallback_logger`.  Raising (which the Python code would
do only by calling a `None` factory) is modelled as `Except.error`. -/

/-- The mutable per-proxy state: `self._real_logger` and `self.factory`
(plus the immutable `self.name`). -/
structure ProxyState (L : Type) where
  realLogger : Option L
  factory : Option (String → L)
  name : String

/-- `get_logger(name)` creates the proxy with `_real_logger = None` and,
before `setup_proxy_loggers` has run, `factory = None`. -/
def proxyInit (L : Type) (name : String) : ProxyState L :=
  { realLogger := none, factory := none, name := name }

/-- `setup_proxy_loggers(f)` as seen by one proxy: `proxy.factory = f`. -/
def setupFactory {L : Type} (s : ProxyState L) (f : String → L) : ProxyState L :=
  { s with factory := some f }

/-- `self.factory(self.name)`: calling a `None` factory would raise. -/
def applyFactory {L : Type} (factory : Option (String → L)) (name : String) :
    Except Unit L :=
  match factory with
  | none => .error ()
  | some f => .ok (f name)

/-- The error message emitted through the fallback logger. -/
def notSetUpMsg : String :=
  "Logging is not set up yet. Please create LoggingConfig and call configure method first"

/-- The `real_logger` property: if `_real_logger` is unset, then (under
the lock) if neither `_real_logger` nor `factory` is set, log the
diagnostic on the fallback logger and return the fallback for this call;
otherwise create and cache the real logger via the factory.  Returns the
handle the call is routed to, the new proxy state, and the diagnostics
emitted through the error channel of the fallback logger during this call. -/
def realLoggerStep {L : Type} (fallback : L) (s : ProxyState L) :
    Except Unit (L × ProxyState L × List String) :=
  match s.realLogger with
  | some l => .ok (l, s, [])
  | none =>
      match s.factory with
      | none => .ok (fallback, s, [notSetUpMsg])
      | some _ => do
          let l ← applyFactory s.factory s.name
          .ok (l, { s with realLogger := some l }, [])

/-- One event observed on a logger handle: which handle received which
method call with which message. -/
structure LogEvent (L : Type) where
  handle : L
  method : String
  message : String

/-- `proxy.<meth>(msg)`: `__getattr__` forwards any unrecognized attribute
to `self.real_logger`, so the method runs on the handle `real_logger`
returns.  The returned event list holds the fallback-diagnostic events
(the `error` calls on the fallback logger) followed by the forwarded call. -/
def callLogMethod {L : Type} (fallback : L) (s : ProxyState L)
    (meth msg : String) : Except Unit (ProxyState L × List (LogEvent L)) := do
  let (l, s', diags) ← realLoggerStep fallback s
  .ok (s', diags.map (fun d => ⟨fallback, "error", d⟩) ++ [⟨l, meth, msg⟩])

/-! ### The queue pipeline (producer/consumer)

Modelled from the spec: the consumer loop of the background listener is
`QueueListener._monitor` / `QueueListener.stop` of the host library, which
the repository only subclasses (`LoggingQueueListener` starts it and
registers its stop with `atexit`); the code of that loop is not under `src/`.
Per the consumer contract of the spec, a single dedicated thread pulls entries
in strict FIFO order and dispatches each to the downstream sinks, and on
stop the consumer drains the remaining entries before terminating (the
stop call enqueues a sentinel and joins the consumer thread; the joined
drain is modelled as one atomic step).  Producers are identified by a
`Nat`; an entry records its producer and a payload. -/

/-- One interleaving event of the pipeline: a producer enqueues, the
consumer dispatches one entry, or `stop()` runs (drain + terminate). -/
inductive QEvent where
  | enq (producer : Nat) (payload : Nat)
  | dispatch
  | stop

/-- Pipeline state: the FIFO queue contents, the entries dispatched to the
downstream sinks so far (in dispatch order), and whether the consumer has
terminated. -/
structure QueueState where
  queue : List (Nat × Nat)
  dispatched : List (Nat × Nat)
  stopped : Bool

def queueInit : QueueState := { queue := [], dispatched := [], stopped := false }

/-- One step of the pipeline.  Enqueues arrive at the tail; the consumer
dispatches from the head (blocking, i.e. a no-op, on an empty queue);
`stop` drains everything still queued, in order, and terminates the
consumer.  After termination the consumer thread is gone, so no further
entry is dispatched. -/
def queueStep (s : QueueState) : QEvent → QueueState
  | .enq p e => if s.stopped then s else { s with queue := s.queue ++ [(p, e)] }
  | .dispatch =>
      if s.stopped then s
      else
        match s.queue with
        | [] => s
        | entry :: rest =>
            { s with queue := rest, dispatched := s.dispatched ++ [entry] }
  | .stop =>
      if s.stopped then s
      else { queue := [], dispatched := s.dispatched ++ s.queue, stopped := true }

/-- Run a trace of events from the initial state. -/
def queueRun (tr : List QEvent) : QueueState :=
  tr.foldl queueStep queueInit

/-- The entries accepted into the queue, in arrival order: every `enq`
before the pipeline stops. -/
def arrivals (stopped : Bool) : List QEvent → List (Nat × Nat)
  | [] => []
  | .enq p e :: rest => if stopped then arrivals stopped rest
      else (p, e) :: arrivals stopped rest
  | .dispatch :: rest => arrivals stopped rest
  | .stop :: rest => arrivals true rest

/-! ### Concrete sample inputs, used to instantiate the theorems below -/

/-- Key lookup in the result of a fallible merge (`none` when the merge
raised). -/
def lookupInResult (r : Except Unit JObj) (k : String) : Option JVal :=
  match r with
  | .ok d => lookupKey d k
  | .error _ => none

/-- A fixed stand-in for `timestamp_to_iso` on sample records. -/
def tsConst : Nat → String := fun _ => "1970-01-01T00:00:00.000Z"

/-- A sample resolved environment: `ENV=dev`, system `sys`, instance
`host`. -/
def envSample : LoggingEnv := ⟨"dev", "sys", "host"⟩

/-- A plain sample record (no error info, no extras, no transport-bound
extra). -/
def recPlain : Record :=
  { created := 0
    levelname := "INFO"
    messageRendered := "Log message 123"
    pathname := "path"
    lineno := 1
    name := "name"
    excInfo := none
    attrs := []
    bindedCtxExtra := none }

/-- A record whose caller passed `extra={'env': 'percall'}` — the
attribute lands in `record.__dict__` under the key `env`. -/
def recEnvAttr : Record := { recPlain with attrs := [("env", .str "percall")] }

/-- A record whose caller passed a harmless extra field `foo`. -/
def recFooAttr : Record := { recPlain with attrs := [("foo", .str "bar")] }

/-- A record carrying `exc_info` for a raised `ValueError`: the exception
type has `__name__ = "ValueError"` and — being an ordinary class — its
metaclass is `type`. -/
def recWithError : Record :=
  { recPlain with
    levelname := "ERROR"
    excInfo := some
      { excTypeName := "ValueError"
        excTypeClassName := "type"
        excValueRepr := "ValueError(boom)"
        tbFrames := ["frame1", "frame2"] } }

/-- A context world with one scope dict `{"k": 0}` installed at address
`0` and the context variable pointing at it. -/
def ctxSample : CtxWorld := { heap := [[("k", 0)]], cv := some 0 }

/-- A sample pipeline trace: two producers interleave, one dispatch
happens mid-stream, then `stop` drains. -/
def traceSample : List QEvent :=
  [.enq 1 10, .enq 2 20, .dispatch, .enq 1 11, .stop]

end ModernPylogging

namespace ModernPylogging

/-! ### Helper lemmas about the dotted-path merge -/

theorem lookupKey_setKey_self (d : JObj) (k : String) (v : JVal) :
    lookupKey (setKey d k v) k = some v := by
  induction d with
  | nil => simp [setKey, lookupKey]
  | cons kv rest ih =>
      obtain ⟨k', v'⟩ := kv
      by_cases h : k' = k <;> simp [setKey, lookupKey, h, ih]

theorem lookupKey_setKey_ne (d : JObj) (k₀ k : String) (v : JVal)
    (h : k₀ ≠ k) : lookupKey (setKey d k₀ v) k = lookupKey d k := by
  induction d with
  | nil => simp [setKey, lookupKey, h]
  | cons kv rest ih =>
      obtain ⟨k', v'⟩ := kv
      by_cases h' : k' = k₀ <;> simp [setKey, lookupKey, h', h, ih]

/-- A successful `setPath` on segments `k₀ :: segs` only rewrites the
binding of `k₀`: every other key keeps its value. -/
theorem setPath_lookup_ne (d d' : JObj) (k₀ : String) (segs : List String)
    (v : JVal) (hok : setPath d (k₀ :: segs) v = .ok d') (k : String)
    (hk : k₀ ≠ k) : lookupKey d' k = lookupKey d k := by
  cases segs with
  | nil =>
      simp only [setPath, Except.ok.injEq] at hok
      subst hok
      exact lookupKey_setKey_ne d k₀ k v hk
  | cons s ss =>
      simp only [setPath] at hok
      split at hok
      · split at hok
        · cases hok
        · simp only [Except.ok.injEq] at hok
          subst hok
          exact lookupKey_setKey_ne d k₀ k _ hk
      · split at hok
        · cases hok
        · simp only [Except.ok.injEq] at hok
          subst hok
          exact lookupKey_setKey_ne d k₀ k _ hk
      · cases hok

theorem splitDotAux_ne_nil (cs : List Char) (acc : List Char) :
    splitDotAux cs acc ≠ [] := by
  induction cs generalizing acc with
  | nil => simp [splitDotAux]
  | cons c rest ih =>
      by_cases h : c = '.' <;> simp [splitDotAux, h, ih]

theorem splitDot_ne_nil (s : String) : splitDot s ≠ [] :=
  splitDotAux_ne_nil s.data []

/-- A successful merge whose update keys all start (first dotted segment)
with something other than `k` preserves the binding of `k`. -/
theorem update_preserves_lookup (u : JObj) (d d' : JObj) (k : String)
    (hok : update_fields_with_nested d u = .ok d')
    (hu : ∀ p ∈ u, (splitDot p.1).head? ≠ some k) :
    lookupKey d' k = lookupKey d k := by
  induction u generalizing d with
  | nil =>
      simp only [update_fields_with_nested, Except.ok.injEq] at hok
      rw [hok]
  | cons kv rest ih =>
      obtain ⟨k₁, v₁⟩ := kv
      simp only [update_fields_with_nested] at hok
      cases hsp : setPath d (splitDot k₁) v₁ with
      | error e => rw [hsp] at hok; cases hok
      | ok d₁ =>
          rw [hsp] at hok
          have hrest : ∀ p ∈ rest, (splitDot p.1).head? ≠ some k :=
            fun p hp => hu p (List.mem_cons_of_mem _ hp)
          have hk₁ : (splitDot k₁).head? ≠ some k :=
            hu (k₁, v₁) (List.mem_cons_self _ _)
          cases hsd : splitDot k₁ with
          | nil => exact absurd hsd (splitDot_ne_nil k₁)
          | cons a segs =>
              rw [hsd] at hsp
              rw [hsd] at hk₁
              simp only [List.head?_cons, ne_eq, Option.some.injEq] at hk₁
              have := setPath_lookup_ne d d₁ a segs v₁ hsp k hk₁
              rw [ih d₁ hok hrest, this]

/-- A successful merge sets a dot-free key `k` occurring in the updates
to its (unique) update value, provided no other update key nests under
`k` (first dotted segment equal to `k`). -/
theorem update_sets_flat_key (u : JObj) (d d' : JObj) (k : String) (v : JVal)
    (hok : update_fields_with_nested d u = .ok d')
    (hmem : (k, v) ∈ u)
    (hflat : splitDot k = [k])
    (hnodup : (u.map Prod.fst).Nodup)
    (hothers : ∀ p ∈ u, p.1 = k ∨ (splitDot p.1).head? ≠ some k) :
    lookupKey d' k = some v := by
  induction u generalizing d with
  | nil => cases hmem
  | cons kv rest ih =>
      obtain ⟨k₁, v₁⟩ := kv
      simp only [update_fields_with_nested] at hok
      cases hsp : setPath d (splitDot k₁) v₁ with
      | error e => rw [hsp] at hok; cases hok
      | ok d₁ =>
          rw [hsp] at hok
          simp only [List.map_cons, List.nodup_cons] at hnodup
          rcases List.mem_cons.mp hmem with heq | hmemrest
          · -- the head of the updates is `(k, v)` itself
            obtain ⟨hk₁, hv₁⟩ := Prod.mk.injEq .. ▸ heq
            subst hk₁; subst hv₁
            rw [hflat] at hsp
            simp only [setPath, Except.ok.injEq] at hsp
            subst hsp
            have hrest : ∀ p ∈ rest, (splitDot p.1).head? ≠ some k := by
              intro p hp
              rcases hothers p (List.mem_cons_of_mem _ hp) with h₁ | h₂
              · exact absurd (h₁ ▸ List.mem_map_of_mem Prod.fst hp)
                  (h₁ ▸ hnodup.1)
              · exact h₂
            rw [update_preserves_lookup rest _ d' k hok hrest]
            exact lookupKey_setKey_self d k v
          · -- `(k, v)` occurs later; the head key differs from `k`
            exact ih d₁ hok hmemrest hnodup.2
              (fun p hp => hothers p (List.mem_cons_of_mem _ hp))

/-- `setPath` raises when the first segment of a longer dotted key is
bound to a non-dictionary value in the destination. -/
theorem setPath_error_on_scalar (d : JObj) (a : String) (b : String)
    (bs : List String) (v u : JVal)
    (hlook : lookupKey d a = some u) (hscal : ∀ o, u ≠ .obj o) :
    setPath d (a :: b :: bs) v = .error () := by
  simp only [setPath]
  rw [hlook]
  cases u with
  | obj o => exact absurd rfl (hscal o)
  | str s => rfl
  | int n => rfl
  | arr l => rfl

/-! ### Helper lemmas about the context heap -/

theorem heapGet_concat_self (h : List CtxDict) (d : CtxDict) :
    heapGet (h ++ [d]) h.length = d := by
  simp [heapGet, List.getD_eq_getElem?_getD]

theorem heapGet_append_lt (h extra : List CtxDict) (a : Nat)
    (ha : a < h.length) : heapGet (h ++ extra) a = heapGet h a := by
  simp [heapGet, List.getD_eq_getElem?_getD, List.getElem?_append_left ha]

theorem ctxSetKey_not_mem (d : CtxDict) (k : String) (v : Nat)
    (hk : k ∉ d.map Prod.fst) : ctxSetKey d k v = d ++ [(k, v)] := by
  induction d with
  | nil => rfl
  | cons kv rest ih =>
      obtain ⟨k', v'⟩ := kv
      simp only [List.map_cons, List.mem_cons] at hk
      push_neg at hk
      simp [ctxSetKey, Ne.symm hk.1, ih hk.2]

/-- Folding the items of a no-duplicate dict into an accumulator with
disjoint keys appends them in order. -/
theorem dictUnion_disjoint (m acc : CtxDict)
    (hnodup : (m.map Prod.fst).Nodup)
    (hdisj : ∀ k ∈ m.map Prod.fst, k ∉ acc.map Prod.fst) :
    dictUnion acc m = acc ++ m := by
  induction m generalizing acc with
  | nil => simp [dictUnion]
  | cons kv rest ih =>
      obtain ⟨k, v⟩ := kv
      simp only [List.map_cons, List.nodup_cons] at hnodup
      have hk : k ∉ acc.map Prod.fst := hdisj k (by simp)
      have step : ctxSetKey acc k v = acc ++ [(k, v)] :=
        ctxSetKey_not_mem acc k v hk
      have hdisj' : ∀ k' ∈ rest.map Prod.fst, k' ∉ (acc ++ [(k, v)]).map Prod.fst := by
        intro k' hk'
        simp only [List.map_append, List.mem_append, List.map_cons,
          List.map_nil, List.mem_singleton]
        push_neg
        refine ⟨fun hmem => hdisj k' (by simp [hk']) (by simpa using hmem), ?_⟩
        intro heq
        exact hnodup.1 (heq ▸ hk')
      calc dictUnion acc ((k, v) :: rest)
        = dictUnion (ctxSetKey acc k v) rest := rfl
      _ = dictUnion (acc ++ [(k, v)]) rest := by rw [step]
      _ = (acc ++ [(k, v)]) ++ rest := ih _ hnodup.2 hdisj'
      _ = acc ++ ((k, v) :: rest) := by simp

theorem dictUnion_nil_left (m : CtxDict) (hnodup : (m.map Prod.fst).Nodup) :
    dictUnion [] m = m := by
  simpa using dictUnion_disjoint m [] hnodup (by simp)

/-! ### Helper lemmas about the queue pipeline -/

/-- Step invariant: dispatched entries followed by still-queued entries
equal the accepted arrivals, in arrival order. -/
theorem queueFold_dispatch_queue (tr : List QEvent) (s : QueueState) :
    (tr.foldl queueStep s).dispatched ++ (tr.foldl queueStep s).queue =
      s.dispatched ++ s.queue ++ arrivals s.stopped tr := by
  induction tr generalizing s with
  | nil => simp [arrivals]
  | cons ev rest ih =>
      cases ev with
      | enq p e =>
          by_cases hs : s.stopped
          · simp only [List.foldl_cons, queueStep, hs, if_true]
            rw [ih s, hs]
            simp [arrivals]
          · simp only [List.foldl_cons, queueStep, hs, if_false]
            rw [ih]
            simp only [hs, arrivals, if_false]
            simp [List.append_assoc]
      | dispatch =>
          by_cases hs : s.stopped
          · simp only [List.foldl_cons, queueStep, hs, if_true]
            rw [ih s, hs]
            simp [arrivals]
          · cases hq : s.queue with
            | nil =>
                have hstep : queueStep s .dispatch = s := by
                  simp [queueStep, hs, hq]
                simp only [List.foldl_cons, hstep]
                rw [ih s]
                simp [arrivals, hs, hq]
            | cons entry restq =>
                simp only [List.foldl_cons, queueStep, hs, if_false, hq]
                rw [ih]
                simp [arrivals, hs, hq, List.append_assoc]
      | stop =>
          by_cases hs : s.stopped
          · simp only [List.foldl_cons, queueStep, hs, if_true]
            rw [ih s, hs]
            simp [arrivals]
          · simp only [List.foldl_cons, queueStep, hs, if_false]
            rw [ih]
            simp only [arrivals, hs]
            simp [List.append_assoc]

/-- Step invariant: once the pipeline has stopped, the queue is empty
(the drain left nothing behind). -/
theorem queueFold_stopped_empty (tr : List QEvent) (s : QueueState)
    (hinv : s.stopped = true → s.queue = []) :
    (tr.foldl queueStep s).stopped = true → (tr.foldl queueStep s).queue = [] := by
  induction tr generalizing s with
  | nil => exact hinv
  | cons ev rest ih =>
      simp only [List.foldl_cons]
      apply ih
      cases ev with
      | enq p e =>
          by_cases hs : s.stopped
          · simp [queueStep, hs, hinv hs]
          · simp [queueStep, hs]
      | dispatch =>
          by_cases hs : s.stopped
          · simp [queueStep, hs, hinv hs]
          · cases hq : s.queue with
            | nil => simp [queueStep, hs, hq]
            | cons entry restq => simp [queueStep, hs, hq]
      | stop =>
          by_cases hs : s.stopped
          · simp [queueStep, hs, hinv hs]
          · simp [queueStep, hs]

/-! ### Claims -/

/-- C1, counterexample.  The claim states that when an intermediate
segment of a dotted update key holds a scalar, `merge` overwrites the
scalar with a nested object, so that merging `a.b ↦ 2` into `a ↦ 1`
returns `a ↦ obj (b ↦ 2)` and never raises.  In the code,
`here.setdefault(key, {})` returns the existing scalar `1`, and the
subsequent item assignment on it raises a `TypeError`: the merge raises
instead of overwriting. -/
theorem C1_conflict_overwrite_counterexample :
    update_fields_with_nested [("a", .int 1)] [("a.b", .int 2)] = .error () ∧
    update_fields_with_nested [("a", .int 1)] [("a.b", .int 2)] ≠
      .ok [("a", .obj [("b", .int 2)])] := by
  constructor
  · rfl
  · intro h
    have h' : (Except.error () : Except Unit JObj) =
        Except.ok [("a", JVal.obj [("b", JVal.int 2)])] := h
    cases h'

/-- C1, amended.  Whenever an intermediate segment of a dotted update key
is bound to a non-dictionary value in the destination,
`update_fields_with_nested` raises (a `TypeError`, modelled as
`Except.error ()`) instead of overwriting the scalar with a nested
object. -/
theorem C1_conflict_raises (d : JObj) (k : String) (w : JVal) (a : String)
    (rest : List String) (u : JVal)
    (hsplit : splitDot k = a :: rest) (hrest : rest ≠ [])
    (hlook : lookupKey d a = some u) (hscal : ∀ o : List (String × JVal), u ≠ .obj o) :
    update_fields_with_nested d [(k, w)] = .error () := by
  cases rest with
  | nil => exact absurd rfl hrest
  | cons b bs =>
      simp only [update_fields_with_nested]
      rw [hsplit, setPath_error_on_scalar d a b bs w u hlook hscal]

/-- C1, witness for the amended theorem: merging `a.b ↦ 2` into `a ↦ 1`
raises. -/
theorem C1_conflict_raises_witness :
    update_fields_with_nested [("a", .int 1)] [("a.b", .int 2)] = .error () :=
  C1_conflict_raises [("a", .int 1)] "a.b" (.int 2) "a" ["b"] (.int 1)
    rfl (by simp) rfl (fun o h => by cases h)

/-- C2, counterexample.  The claim states the context-extra snapshot
attached to the record at hand-off is a copy, never the same object, so a
later in-place mutation by the producer leaves the bound extra unchanged.
In the code, `prepare` calls `get_log_extra()` without `should_copy`, so
the record holds a reference to the very dict object in the context
variable: mutating that object in place changes what the record sees. -/
theorem C2_copy_in_counterexample :
    (prepare_binded_extra ctxSample).2 = 0 ∧
    ctxSample.cv = some 0 ∧
    (prepare_binded_extra ctxSample).1 = ctxSample ∧
    heapGet ctxSample.heap 0 = [("k", 0)] ∧
    heapGet (mutateInPlace ctxSample 0 "k" 1).heap
      (prepare_binded_extra ctxSample).2 = [("k", 1)] ∧
    ([("k", 1)] : CtxDict) ≠ [("k", 0)] :=
  ⟨rfl, rfl, rfl, rfl, rfl, by decide⟩

/-- `update_log_extra` only allocates fresh dict objects (copy, union) and
repoints the context variable; it never mutates an existing heap cell. -/
theorem update_log_extra_preserves (w : CtxWorld) (u : CtxDict) (b : Nat)
    (hb : b < w.heap.length) :
    heapGet (update_log_extra w u).heap b = heapGet w.heap b := by
  obtain ⟨hp, cv⟩ := w
  simp only at hb
  cases cv with
  | none =>
      obtain ⟨x, y, z, hshape⟩ :
          ∃ x y z, (update_log_extra ⟨hp, none⟩ u).heap =
            ((hp ++ [x]) ++ [y]) ++ [z] := ⟨_, _, _, rfl⟩
      rw [hshape,
        heapGet_append_lt _ _ _
          (by simp only [List.length_append, List.length_cons,
            List.length_nil]; omega),
        heapGet_append_lt _ _ _
          (by simp only [List.length_append, List.length_cons,
            List.length_nil]; omega),
        heapGet_append_lt _ _ _ hb]
  | some a =>
      obtain ⟨x, y, hshape⟩ :
          ∃ x y, (update_log_extra ⟨hp, some a⟩ u).heap =
            (hp ++ [x]) ++ [y] := ⟨_, _, rfl⟩
      rw [hshape,
        heapGet_append_lt _ _ _
          (by simp only [List.length_append, List.length_cons,
            List.length_nil]; omega),
        heapGet_append_lt _ _ _ hb]

/-- C2, amended.  When the context variable is set, the `prepare` hand-off
attaches to the record the very dict object the context variable points at
(shared by reference, no copy, no allocation); a later direct in-place
mutation of that object is therefore visible through the record (see the
counterexample).  However, updates made through the official
`update_log_extra` API copy-and-replace rather than mutate, so they never
change the content any previously bound record reference sees. -/
theorem C2_binded_extra_by_reference (w : CtxWorld) (a : Nat) (u : CtxDict)
    (b : Nat) (hcv : w.cv = some a) (hb : b < w.heap.length) :
    (prepare_binded_extra w).2 = a ∧
    (prepare_binded_extra w).1 = w ∧
    heapGet (update_log_extra w u).heap b = heapGet w.heap b := by
  refine ⟨?_, ?_, update_log_extra_preserves w u b hb⟩
  · simp [prepare_binded_extra, get_log_extra, hcv]
  · simp [prepare_binded_extra, get_log_extra, hcv]

/-- C2, witness for the amended theorem. -/
theorem C2_binded_extra_by_reference_witness :
    (prepare_binded_extra ctxSample).2 = 0 ∧
    (prepare_binded_extra ctxSample).1 = ctxSample ∧
    heapGet (update_log_extra ctxSample [("k", 5)]).heap 0 =
      heapGet ctxSample.heap 0 :=
  C2_binded_extra_by_reference ctxSample 0 [("k", 5)] 0 rfl (by decide)

/-- C8: from a fresh/unset scope, `update_log_extra(m)` followed by a read
returns exactly `m` (the merge is `{} | m`); and reading before any write
never errors — the `LookupError` branch returns an empty mapping. -/
theorem C8_fresh_scope_roundtrip (h : List CtxDict) (m : CtxDict)
    (hnodup : (m.map Prod.fst).Nodup) :
    readExtra (update_log_extra ⟨h, none⟩ m) = m ∧
    readExtra ⟨h, none⟩ = [] := by
  constructor
  · have h₁ : heapGet (h ++ [[]]) h.length = ([] : CtxDict) :=
      heapGet_concat_self h []
    have h₂ : heapGet ((h ++ [[]]) ++ [heapGet (h ++ [[]]) h.length])
        (h ++ [[]]).length = ([] : CtxDict) := by
      rw [heapGet_concat_self, h₁]
    show heapGet _ _ = m
    simp only [update_log_extra, get_log_extra, alloc, set_log_extra,
      readExtra, if_true]
    rw [heapGet_concat_self, h₂, dictUnion_nil_left m hnodup]
  · show heapGet (h ++ [[]]) h.length = ([] : CtxDict)
    exact heapGet_concat_self h []

/-- C8, witness. -/
theorem C8_fresh_scope_roundtrip_witness :
    readExtra (update_log_extra ⟨[], none⟩ [("a", 1), ("b", 2)]) =
      [("a", 1), ("b", 2)] ∧
    readExtra ⟨[], none⟩ = [] :=
  C8_fresh_scope_roundtrip [] [("a", 1), ("b", 2)] (by decide)

/-- C3: the formatter merges exactly one of the two extra sources.  A
non-empty context snapshot is used as-is and the structured output is
independent of any transport-bound extra on the record; with an empty
snapshot, the transport-bound extra is used when present, and the
contribution is the empty mapping otherwise. -/
theorem C3_context_transport_exclusivity (tsIso : Nat → String) (cap : Bool)
    (env : LoggingEnv) (ctx : JObj) (r : Record) (b : JObj) :
    (ctx ≠ [] →
      prepare_log_extra ctx r = ctx ∧
      prepare_log_dict tsIso cap env ctx { r with bindedCtxExtra := some b } =
        prepare_log_dict tsIso cap env ctx { r with bindedCtxExtra := none }) ∧
    prepare_log_extra [] { r with bindedCtxExtra := some b } = b ∧
    prepare_log_extra [] { r with bindedCtxExtra := none } = [] := by
  refine ⟨?_, rfl, rfl⟩
  intro hctx
  cases ctx with
  | nil => exact absurd rfl hctx
  | cons c cs =>
      refine ⟨rfl, ?_⟩
      simp [prepare_log_dict, formatter_base, prepare_log_extra,
        grab_record_extra_fields]

/-- C3, witness. -/
theorem C3_context_transport_exclusivity_witness :
    prepare_log_extra [("k", .str "v")] recPlain = [("k", .str "v")] ∧
    prepare_log_dict tsConst false envSample [("k", .str "v")]
        { recPlain with bindedCtxExtra := some [("tb", .str "x")] } =
      prepare_log_dict tsConst false envSample [("k", .str "v")]
        { recPlain with bindedCtxExtra := none } :=
  (C3_context_transport_exclusivity tsConst false envSample
    [("k", .str "v")] recPlain [("tb", .str "x")]).1 (by simp)

/-- C4, counterexample.  The claim states every record attribute outside
the fixed reserved metadata set (plus the transport marker) and without a
private prefix is merged last, its value winning over the static defaults.
The record attribute `env ↦ "percall"` satisfies that filter, yet the
capture pass also excludes the static-default keys, so the output keeps
the default `env ↦ "dev"`. -/
theorem C4_capture_pass_counterexample :
    ¬ "env" ∈ RESERVED_ATTRS ∧
    startsWithUnderscore "env" = false ∧
    recEnvAttr.attrs = [("env", JVal.str "percall")] ∧
    lookupInResult (prepare_log_dict tsConst true envSample [] recEnvAttr)
      "env" = some (JVal.str "dev") ∧
    ¬ lookupInResult (prepare_log_dict tsConst true envSample [] recEnvAttr)
      "env" = some (JVal.str "percall") := by
  refine ⟨by decide, rfl, rfl, rfl, ?_⟩
  intro hcontra
  have h' : some (JVal.str "dev") = some (JVal.str "percall") := by
    rw [← hcontra]; rfl
  simp only [Option.some.injEq, JVal.str.injEq] at h'
  exact absurd h' (by decide)

/-- C4, amended.  When capture is enabled, every record attribute whose
key is not in the reserved metadata set, does not start with `_`, and is
not one of the static-default keys (`env`, `system`, `inst`), is merged
last, so its value wins over every earlier source (defaults, context or
transport extra) in the structured output.  Dot-free keys of a record
dict (no duplicates; no other attribute nesting under `k`) are
considered. -/
theorem C4_capture_pass_amended (tsIso : Nat → String) (env : LoggingEnv)
    (ctx : JObj) (r : Record) (k : String) (v : JVal) (out : JObj)
    (hmem : (k, v) ∈ r.attrs)
    (hres : ¬ k ∈ RESERVED_ATTRS)
    (hpriv : startsWithUnderscore k = false)
    (hdflt : ¬ k ∈ (["env", "system", "inst"] : List String))
    (hflat : splitDot k = [k])
    (hnodup : (r.attrs.map Prod.fst).Nodup)
    (hothers : ∀ p ∈ r.attrs, p.1 = k ∨ (splitDot p.1).head? ≠ some k)
    (hok : prepare_log_dict tsIso true env ctx r = .ok out) :
    lookupKey out k = some v := by
  simp only [prepare_log_dict, if_true] at hok
  split at hok
  · cases hok
  · split at hok
    · cases hok
    · -- the final stage merges the captured fields into the output
      have hkeys : (get_logging_defaults env).map Prod.fst =
          ["env", "system", "inst"] := rfl
      refine update_sets_flat_key _ _ _ k v hok ?_ hflat ?_ ?_
      · refine List.mem_filter.mpr ⟨hmem, ?_⟩
        simp [hres, hpriv, hkeys, List.mem_append, hdflt]
      · exact hnodup.sublist
          ((List.filter_sublist r.attrs).map Prod.fst)
      · intro p hp
        exact hothers p (List.mem_filter.mp hp).1

/-- C4, witness for the amended theorem: the captured `foo ↦ "bar"`
appears in the structured output. -/
theorem C4_capture_pass_amended_witness :
    lookupKey
      [("timestamp", JVal.str "1970-01-01T00:00:00.000Z"),
       ("level", JVal.str "INFO"),
       ("message", JVal.str "Log message 123"),
       ("params", JVal.obj
         [("call_filepath", JVal.str "path:1"),
          ("logger_name", JVal.str "name")]),
       ("env", JVal.str "dev"),
       ("system", JVal.str "sys"),
       ("inst", JVal.str "host"),
       ("foo", JVal.str "bar")] "foo" = some (JVal.str "bar") :=
  C4_capture_pass_amended tsConst envSample [] recFooAttr "foo"
    (JVal.str "bar") _ (by exact List.mem_singleton.mpr rfl) (by decide) rfl
    (by decide) rfl (by decide) (by decide) rfl

/-- C5: for a record carrying error info, the output error object holds
the rendered representation of the error value (`message`), the stack
frames as a sequence of strings (`stack`), and an always-empty `params`;
but its kind slot (`code`) holds `exc_type.__class__.__name__` — the name
of the *metaclass* of the exception class, which is `"type"` for every
ordinary exception class — and not the name of the raised error type
(`ValueError` here), contradicting the claim.  The evaluation below shows
the divergence at the failing input. -/
theorem C5_error_object_code_divergence :
    recWithError.excInfo = some
      { excTypeName := "ValueError"
        excTypeClassName := "type"
        excValueRepr := "ValueError(boom)"
        tbFrames := ["frame1", "frame2"] } ∧
    lookupInResult (prepare_log_dict tsConst false envSample [] recWithError)
      "error" = some (JVal.obj
        [("code", JVal.str "type"),
         ("message", JVal.str "ValueError(boom)"),
         ("stack", JVal.arr [JVal.str "frame1", JVal.str "frame2"]),
         ("params", JVal.obj [])]) ∧
    ("type" : String) ≠ "ValueError" :=
  ⟨rfl, rfl, by decide⟩

/-- The error `code` slot is the metaclass name for *every* record whose
exception class is an ordinary class (metaclass `type`), regardless of the
exception type name: the formatter evaluates `exc_type.__class__.__name__`
on the already-extracted type object. -/
theorem C5_error_code_always_type (tsIso : Nat → String) (r : Record)
    (ei : ExcInfo) (hexc : r.excInfo = some ei)
    (hordinary : ei.excTypeClassName = "type") :
    lookupKey (formatter_base tsIso r) "error" = some (JVal.obj
      [("code", JVal.str "type"),
       ("message", JVal.str ei.excValueRepr),
       ("stack", JVal.arr (ei.tbFrames.map JVal.str)),
       ("params", JVal.obj [])]) := by
  simp [formatter_base, hexc, hordinary, lookupKey]

/-- C5, witness for the general lemma. -/
theorem C5_error_code_always_type_witness :
    lookupKey (formatter_base tsConst recWithError) "error" = some (JVal.obj
      [("code", JVal.str "type"),
       ("message", JVal.str "ValueError(boom)"),
       ("stack", JVal.arr [JVal.str "frame1", JVal.str "frame2"]),
       ("params", JVal.obj [])]) :=
  C5_error_code_always_type tsConst recWithError
    { excTypeName := "ValueError"
      excTypeClassName := "type"
      excValueRepr := "ValueError(boom)"
      tbFrames := ["frame1", "frame2"] } rfl rfl

/-- C6: logging-method calls on a proxy never raise.  Before a factory is
bound, a call emits exactly one diagnostic through the fallback logger and
routes the forwarded call to the fallback, leaving the proxy state
unchanged (the fallback is not cached as the resolved handle).  After a
factory `f` is bound, the next call resolves `f name`, caches it, and
every later call is routed to the cached handle — independent of any
factory subsequently in place. -/
theorem C6_unconfigured_proxy_use (L : Type) (fallback : L) (name : String)
    (f g : String → L) (m₁ s₁ m₂ s₂ m₃ s₃ : String) :
    (∀ st : ProxyState L, ∃ res, realLoggerStep fallback st = .ok res) ∧
    callLogMethod fallback (proxyInit L name) m₁ s₁ =
      .ok (proxyInit L name,
        [⟨fallback, "error", notSetUpMsg⟩, ⟨fallback, m₁, s₁⟩]) ∧
    callLogMethod fallback (setupFactory (proxyInit L name) f) m₂ s₂ =
      .ok ({ realLogger := some (f name), factory := some f, name := name },
        [⟨f name, m₂, s₂⟩]) ∧
    callLogMethod fallback
        { realLogger := some (f name), factory := some g, name := name }
        m₃ s₃ =
      .ok ({ realLogger := some (f name), factory := some g, name := name },
        [⟨f name, m₃, s₃⟩]) := by
  refine ⟨?_, rfl, rfl, rfl⟩
  intro st
  obtain ⟨rl, fac, nm⟩ := st
  cases rl with
  | some l => exact ⟨_, rfl⟩
  | none =>
      cases fac with
      | none => exact ⟨_, rfl⟩
      | some fc => exact ⟨_, rfl⟩

/-- C7, counterexample.  The claim states the stop hook registered at
construction is unregistered when the listener is stopped explicitly, so
the stop routine runs exactly once.  Neither listener class unregisters
the hook: after an explicit stop the hook is still registered, and process
exit runs the stop routine a second time. -/
theorem C7_stop_hook_counterexample :
    (explicitStop listenerConstruct).hookRegistered = true ∧
    (processExit (explicitStop listenerConstruct)).stopRuns = 2 :=
  ⟨rfl, rfl⟩

/-- C7, amended.  The stop routine is registered as a process-exit hook at
construction (where the listener is also started), and with no explicit
stop it runs exactly once at process exit (the hook is discharged after
running).  The classes never unregister the hook on explicit stop: an
explicit stop followed by process exit runs the stop routine twice, unless
the caller unregisters the hook manually (as the test helper of the
repository does). -/
theorem C7_stop_hook_not_unregistered :
    listenerConstruct.started = true ∧
    listenerConstruct.hookRegistered = true ∧
    listenerConstruct.stopRuns = 0 ∧
    (processExit listenerConstruct).stopRuns = 1 ∧
    (processExit (processExit listenerConstruct)).stopRuns = 1 ∧
    (∀ w : ListenerWorld, (explicitStop w).hookRegistered = w.hookRegistered) ∧
    (processExit (explicitStop listenerConstruct)).stopRuns = 2 :=
  ⟨rfl, rfl, rfl, rfl, rfl, fun _ => rfl, rfl⟩

/-- C9: for every interleaving of producer enqueues, consumer dispatches
and a stop, the dispatched sequence followed by the still-queued entries
is exactly the accepted arrivals in queue-arrival (FIFO) order; once
stopped, the queue has been drained — nothing enqueued before the stop is
dropped; and per producer, the arrival-order projection splits into the
dispatched projection followed by the queued projection, so the enqueue
order of each producer is preserved in dispatch order. -/
theorem C9_fifo_and_drain (tr : List QEvent) :
    (queueRun tr).dispatched ++ (queueRun tr).queue = arrivals false tr ∧
    ((queueRun tr).stopped = true →
      (queueRun tr).queue = [] ∧
      (queueRun tr).dispatched = arrivals false tr) ∧
    (∀ p : Nat,
      (arrivals false tr).filter (fun e => e.1 = p) =
        ((queueRun tr).dispatched.filter (fun e => e.1 = p)) ++
          ((queueRun tr).queue.filter (fun e => e.1 = p))) := by
  have hmain : (queueRun tr).dispatched ++ (queueRun tr).queue =
      arrivals false tr := by
    have h := queueFold_dispatch_queue tr queueInit
    simpa [queueRun, queueInit] using h
  have hstop : (queueRun tr).stopped = true → (queueRun tr).queue = [] :=
    queueFold_stopped_empty tr queueInit (by simp [queueInit])
  refine ⟨hmain, ?_, ?_⟩
  · intro h
    have hq := hstop h
    exact ⟨hq, by rw [← hmain, hq, List.append_nil]⟩
  · intro p
    rw [← hmain, List.filter_append]

/-- C9, witness: a concrete stopped trace is fully drained. -/
theorem C9_fifo_and_drain_witness :
    (queueRun traceSample).queue = [] ∧
    (queueRun traceSample).dispatched = arrivals false traceSample :=
  (C9_fifo_and_drain traceSample).2.1 rfl

/-- The record-dictionary builder depends on the record attrs only
through the captured-fields argument of the final merge. -/
theorem prepare_log_dict_attrs_only (tsIso : Nat → String) (cap : Bool)
    (env : LoggingEnv) (ctx : JObj) (r : Record) (attrs : JObj) :
    prepare_log_dict tsIso cap env ctx { r with attrs := attrs } =
      (match update_fields_with_nested (formatter_base tsIso r)
          (get_logging_defaults env) with
       | .error e => .error e
       | .ok d₁ =>
           match update_fields_with_nested d₁ (prepare_log_extra ctx r) with
           | .error e => .error e
           | .ok d₂ =>
               if cap then
                 update_fields_with_nested d₂ (grab_record_extra_fields attrs
                   (RESERVED_ATTRS ++ ((get_logging_defaults env).map Prod.fst)))
               else .ok d₂) := rfl

/-- C10: the capture pass excludes, besides the reserved metadata
attributes and private-prefixed keys, every attribute whose key equals a
cached static-default key (`env`, `system`, `inst`): such a record
attribute is dropped by the capture filter, and the structured output is
entirely independent of it — while a context-extra field with the same
key does override the static default (final conjunct). -/
theorem C10_static_defaults_shielded (tsIso : Nat → String)
    (env : LoggingEnv) (ctx : JObj) (r : Record) (k : String) (v : JVal)
    (attrs₁ attrs₂ : JObj)
    (hk : k ∈ (["env", "system", "inst"] : List String)) :
    grab_record_extra_fields (attrs₁ ++ [(k, v)] ++ attrs₂)
        (RESERVED_ATTRS ++ ((get_logging_defaults env).map Prod.fst)) =
      grab_record_extra_fields (attrs₁ ++ attrs₂)
        (RESERVED_ATTRS ++ ((get_logging_defaults env).map Prod.fst)) ∧
    prepare_log_dict tsIso true env ctx
        { r with attrs := attrs₁ ++ [(k, v)] ++ attrs₂ } =
      prepare_log_dict tsIso true env ctx
        { r with attrs := attrs₁ ++ attrs₂ } ∧
    lookupInResult (prepare_log_dict tsConst true envSample
        [("env", .str "ctxval")] recPlain) "env" =
      some (JVal.str "ctxval") := by
  have hmem : k ∈ RESERVED_ATTRS ++ (get_logging_defaults env).map Prod.fst := by
    refine List.mem_append_right _ ?_
    simpa [get_logging_defaults] using hk
  have hgrab : grab_record_extra_fields (attrs₁ ++ [(k, v)] ++ attrs₂)
      (RESERVED_ATTRS ++ ((get_logging_defaults env).map Prod.fst)) =
      grab_record_extra_fields (attrs₁ ++ attrs₂)
        (RESERVED_ATTRS ++ ((get_logging_defaults env).map Prod.fst)) := by
    simp [grab_record_extra_fields, List.filter_append, hmem]
  refine ⟨hgrab, ?_, rfl⟩
  rw [prepare_log_dict_attrs_only, prepare_log_dict_attrs_only, hgrab]

/-- C10, witness: an `env ↦ "percall"` record attribute is invisible in
the structured output. -/
theorem C10_static_defaults_shielded_witness :
    grab_record_extra_fields ([] ++ [("env", JVal.str "percall")] ++
        [("foo", JVal.str "bar")])
        (RESERVED_ATTRS ++ ((get_logging_defaults envSample).map Prod.fst)) =
      grab_record_extra_fields ([] ++ [("foo", JVal.str "bar")])
        (RESERVED_ATTRS ++ ((get_logging_defaults envSample).map Prod.fst)) ∧
    prepare_log_dict tsConst true envSample []
        { recPlain with attrs := [] ++ [("env", JVal.str "percall")] ++
            [("foo", JVal.str "bar")] } =
      prepare_log_dict tsConst true envSample []
        { recPlain with attrs := [] ++ [("foo", JVal.str "bar")] } ∧
    lookupInResult (prepare_log_dict tsConst true envSample
        [("env", .str "ctxval")] recPlain) "env" =
      some (JVal.str "ctxval") :=
  C10_static_defaults_shielded tsConst envSample [] recPlain "env"
    (JVal.str "percall") [] [("foo", JVal.str "bar")] (by decide)
